import Mathlib

/-!
Verification of the hash-based blockchain node implemented in `src/main.go`
(the variant using `crypto/sha256` and uuid block ids).

The development shallowly embeds the Go program:
* machine words are `Nat` reduced modulo `2 ^ 32` where Go's `uint32`
  arithmetic wraps;
* `crypto/sha256.Sum256` together with the `%x` formatting is embedded as an
  executable SHA-256 over byte lists (`sha256hex`), checked below against the
  standard test vectors;
* the global `blockchain.Chain` slice is a `List Block` threaded explicitly;
* each call of `uuid.New().String()` and of `time.Now().Format(...)` becomes
  an explicit input of the operation that performs it;
* the `nodes.json` file and the per-peer `./data/<id>.json` files become
  explicit file states (`NodesFileState`, `FileState`), with read/parse
  failures as separate constructors and writes modelled as succeeding
  (the Go code only logs write errors).
-/

set_option maxRecDepth 8000

/-! ### SHA-256 over byte lists (embedding of `crypto/sha256.Sum256` + `%x`) -/

/-- `2 ^ 32`, the modulus of Go's `uint32` arithmetic inside SHA-256. -/
def w32 : Nat := 4294967296

/-- Right rotation of a 32-bit word. -/
def rotr (n x : Nat) : Nat := (x >>> n) ||| ((x <<< (32 - n)) % w32)

/-- SHA-256 small sigma 0. -/
def ssig0 (x : Nat) : Nat := (rotr 7 x) ^^^ (rotr 18 x) ^^^ (x >>> 3)

/-- SHA-256 small sigma 1. -/
def ssig1 (x : Nat) : Nat := (rotr 17 x) ^^^ (rotr 19 x) ^^^ (x >>> 10)

/-- SHA-256 big sigma 0. -/
def bsig0 (x : Nat) : Nat := (rotr 2 x) ^^^ (rotr 13 x) ^^^ (rotr 22 x)

/-- SHA-256 big sigma 1. -/
def bsig1 (x : Nat) : Nat := (rotr 6 x) ^^^ (rotr 11 x) ^^^ (rotr 25 x)

/-- The 64 SHA-256 round constants (FIPS 180-4, written in decimal). -/
def k256 : List Nat :=
  [1116352408, 1899447441, 3049323471, 3921009573,
   961987163, 1508970993, 2453635748, 2870763221,
   3624381080, 310598401, 607225278, 1426881987,
   1925078388, 2162078206, 2614888103, 3248222580,
   3835390401, 4022224774, 264347078, 604807628,
   770255983, 1249150122, 1555081692, 1996064986,
   2554220882, 2821834349, 2952996808, 3210313671,
   3336571891, 3584528711, 113926993, 338241895,
   666307205, 773529912, 1294757372, 1396182291,
   1695183700, 1986661051, 2177026350, 2456956037,
   2730485921, 2820302411, 3259730800, 3345764771,
   3516065817, 3600352804, 4094571909, 275423344,
   430227734, 506948616, 659060556, 883997877,
   958139571, 1322822218, 1537002063, 1747873779,
   1955562222, 2024104815, 2227730452, 2361852424,
   2428436474, 2756734187, 3204031479, 3329325298]

/-- The SHA-256 initial hash value (FIPS 180-4, written in decimal). -/
def sha256init : List Nat :=
  [1779033703, 3144134277, 1013904242, 2773480762,
   1359893119, 2600822924, 528734635, 1541459225]

/-- Big-endian byte expansion (`n` bytes) of a natural number. -/
def beBytes : Nat → Nat → List Nat
  | 0, _ => []
  | n + 1, v => beBytes n (v / 256) ++ [v % 256]

/-- SHA-256 padding: `0x80`, zeros up to 56 mod 64, then the 64-bit
bit-length, big-endian. -/
def padMsg (m : List Nat) : List Nat :=
  m ++ [0x80] ++ List.replicate ((119 - m.length % 64) % 64) 0
    ++ beBytes 8 (8 * m.length)

/-- Group a byte list into big-endian 32-bit words. -/
def toWords : List Nat → List Nat
  | a :: b :: c :: d :: rest =>
      (a * 16777216 + b * 65536 + c * 256 + d) :: toWords rest
  | _ => []

/-- Extend the 16 message words of one chunk to the 64-entry schedule. -/
def schedule (ws : List Nat) : List Nat :=
  (List.range 48).foldl
    (fun w _ =>
      let n := w.length
      w ++ [(w.getD (n - 16) 0 + ssig0 (w.getD (n - 15) 0)
              + w.getD (n - 7) 0 + ssig1 (w.getD (n - 2) 0)) % w32])
    ws

/-- One SHA-256 round on the eight working variables. -/
def round256 (st : List Nat) (ki wi : Nat) : List Nat :=
  match st with
  | [a, b, c, d, e, f, g, h] =>
      let ch := (e &&& f) ^^^ ((4294967295 ^^^ e) &&& g)
      let t1 := (h + bsig1 e + ch + ki + wi) % w32
      let mj := (a &&& b) ^^^ (a &&& c) ^^^ (b &&& c)
      let t2 := (bsig0 a + mj) % w32
      [(t1 + t2) % w32, a, b, c, (d + t1) % w32, e, f, g]
  | other => other

/-- Compress one 16-word chunk into the running hash state. -/
def sha256compress (h : List Nat) (chunk : List Nat) : List Nat :=
  let st := ((k256.zip (schedule chunk)).foldl
    (fun s kw => round256 s kw.1 kw.2) h)
  (h.zip st).map (fun p => (p.1 + p.2) % w32)

/-- SHA-256 of a byte list, as the list of eight 32-bit result words. -/
def sha256words (msg : List Nat) : List Nat :=
  let ws := toWords (padMsg msg)
  (List.range (ws.length / 16)).foldl
    (fun h i => sha256compress h ((ws.drop (16 * i)).take 16)) sha256init

/-- UTF-8 encoding of one character, as bytes (Go's `[]byte(string)`). -/
def utf8Char (ch : Char) : List Nat :=
  let n := ch.toNat
  if n < 0x80 then [n]
  else if n < 0x800 then
    [0xC0 ||| (n >>> 6), 0x80 ||| (n &&& 0x3F)]
  else if n < 0x10000 then
    [0xE0 ||| (n >>> 12), 0x80 ||| ((n >>> 6) &&& 0x3F), 0x80 ||| (n &&& 0x3F)]
  else
    [0xF0 ||| (n >>> 18), 0x80 ||| ((n >>> 12) &&& 0x3F),
     0x80 ||| ((n >>> 6) &&& 0x3F), 0x80 ||| (n &&& 0x3F)]

/-- UTF-8 bytes of a string. -/
def utf8Bytes (s : String) : List Nat := (s.data.map utf8Char).flatten

/-- Lowercase hex digit. -/
def hexChar (n : Nat) : Char := "0123456789abcdef".data.getD n '0'

/-- Eight lowercase hex characters of one 32-bit word (Go's `%x`). -/
def wordToHex (w : Nat) : List Char :=
  [hexChar ((w >>> 28) % 16), hexChar ((w >>> 24) % 16),
   hexChar ((w >>> 20) % 16), hexChar ((w >>> 16) % 16),
   hexChar ((w >>> 12) % 16), hexChar ((w >>> 8) % 16),
   hexChar ((w >>> 4) % 16), hexChar (w % 16)]

/-- Hex-encoded SHA-256 digest of a string: the embedding of Go's
`fmt.Sprintf("%x", sha256.Sum256([]byte(s)))`. -/
def sha256hex (s : String) : String :=
  String.mk (((sha256words (utf8Bytes s)).map wordToHex).flatten)

/-- Standard test vector: SHA-256 of `"abc"`. -/
theorem sha256hex_abc :
    sha256hex "abc"
      = "ba7816bf8f01cfea414140de5dae2223b00361a396177a9cb410ff61f20015ad" := by
  decide

/-- Standard test vector: SHA-256 of the empty string. -/
theorem sha256hex_empty :
    sha256hex ""
      = "e3b0c44298fc1c149afbf4c8996fb92427ae41e4649b934ca495991b7852b855" := by
  decide

/-! ### Data model (`Block`, `main.go` lines 298-310) -/

/-- Embedding of the Go `Block` struct (`id`, `timestamp`, `data`,
`prevHash`, `hash`). -/
structure Block where
  ID : String
  Timestamp : String
  Data : String
  PrevHash : String
  Hash : String
deriving DecidableEq, Repr

/-- Default block, used only as the `List.getD` fallback in statements. -/
def blockDefault : Block := ⟨"", "", "", "", ""⟩

/-! ### HashChain and Ledger operations (`main.go` lines 338-372) -/

/-- Embedding of `calculateHash(prevHash, timestamp, data, prevHash2)`:
concatenate the four inputs in order and hex-encode their SHA-256 digest. -/
def calculateHash (prevHash timestamp data prevHash2 : String) : String :=
  sha256hex (prevHash ++ timestamp ++ data ++ prevHash2)

/-- The genesis block built by `initBlockchain`; `genesisID` is the value
returned by the `uuid.New().String()` call it performs. -/
def genesisBlock (genesisID : String) : Block :=
  { ID := genesisID
    Timestamp := "2024-03-21 00:00:00"
    Data := "Genesis Block"
    PrevHash := ""
    Hash := calculateHash "genesisHash" "2024-03-21 00:00:00" "Genesis Block" "" }

/-- Embedding of `initBlockchain`: append the genesis block to the global
chain (which is empty at process start). -/
def initBlockchain (genesisID : String) (chain : List Block) : List Block :=
  chain ++ [genesisBlock genesisID]

/-- The inputs a single `mineBlock` call draws from its environment:
the `nodeID` argument, the fresh `uuid.New().String()` value, and the two
separate `time.Now().Format("2006-01-02 15:04:05")` reads — one for the
`Timestamp` field (line 356) and one inside the `Hash` argument (line 359). -/
structure MineParams where
  nodeID : String
  newID : String
  now1 : String
  now2 : String
deriving DecidableEq, Repr

/-- The block literal constructed by `mineBlock` from the previous tip. -/
def newBlockOf (p : MineParams) (prevBlock : Block) : Block :=
  { ID := p.newID
    Timestamp := p.now1
    Data := "Data for Node " ++ p.nodeID
    PrevHash := prevBlock.Hash
    Hash := calculateHash prevBlock.Hash p.now2
      ("Data for Node " ++ p.nodeID) prevBlock.Hash }

/-- Embedding of `mineBlock`'s effect on the chain: read the tip
`blockchain.Chain[len(blockchain.Chain)-1]` (`none` models the index
out-of-range panic on an empty chain), append the new block, and return it.
The `storeBlockData(newBlock, nodeID)` side effect on the miner's own data
file is modelled separately by `storeBlockData` below. -/
def mineBlock (p : MineParams) (chain : List Block) :
    Option (Block × List Block) :=
  match chain.getLast? with
  | none => none
  | some prevBlock =>
      let nb := newBlockOf p prevBlock
      some (nb, chain ++ [nb])

/-- Iterate `mineBlock` over a list of per-call environment inputs
(an empty-chain failure leaves the chain unchanged; it never occurs on
chains reachable from `initBlockchain`). -/
def mineMany (ps : List MineParams) (chain : List Block) : List Block :=
  ps.foldl (fun c p =>
    match mineBlock p c with
    | some r => r.2
    | none => c) chain

/-- Linkage relation between consecutive blocks: the second block's
`prevHash` is the first block's `hash`. -/
def linkRel (a b : Block) : Prop := b.PrevHash = a.Hash

/-! ### ReplicationStore (`storeBlockData`, `main.go` lines 374-414) -/

/-- State of one per-peer data file `./data/<peerID>.json`.
`corrupt` is a file whose contents fail `json.Unmarshal`; `readError` is a
`ReadFile` failure other than non-existence. -/
inductive FileState where
  | absent
  | readError
  | corrupt
  | good (blocks : List Block)
deriving DecidableEq, Repr

/-- Embedding of the filter loop of `storeBlockData` (lines 391-397):
keep, in order, every existing block whose `ID` differs from `blockID`. -/
def removeSameID (blockID : String) (blocks : List Block) : List Block :=
  blocks.foldl (fun acc b => if b.ID != blockID then acc ++ [b] else acc) []

/-- List-level effect of `storeBlockData` on a successfully read block list:
drop the blocks sharing the new block's `ID`, then append the new block. -/
def storeBlocks (block : Block) (blocks : List Block) : List Block :=
  removeSameID block.ID (blocks) ++ [block]

/-- Embedding of `storeBlockData(block, nodeID)` on the peer's file state.
On `absent` and on `readError` the Go code continues with an empty slice
(only `Unmarshal` failures return early, leaving the file untouched);
writes are modelled as succeeding (write errors are only logged). -/
def storeBlockData (block : Block) (fs : FileState) : FileState :=
  match fs with
  | FileState.absent => FileState.good (storeBlocks block [])
  | FileState.readError => FileState.good (storeBlocks block [])
  | FileState.corrupt => FileState.corrupt
  | FileState.good blocks => FileState.good (storeBlocks block blocks)

/-- A per-peer replication store as built by this program: the result of
replaying a sequence of `storeBlockData` list-level updates from an empty
(freshly created) file. -/
def replayStore (ops : List Block) : List Block :=
  ops.foldl (fun s b => storeBlocks b s) []

/-! ### NodeRegistry (`loadNodes`/`saveNodes`/`register`, lines 458-524) -/

/-- Errors `loadNodes` can return: a `ReadFile` failure other than
non-existence, or a `json.Unmarshal` failure. -/
inductive LoadErr where
  | ioError
  | parseError
deriving DecidableEq, Repr

/-- State of the shared `nodes.json` file. -/
inductive NodesFileState where
  | absent
  | readError
  | corrupt
  | good (nodes : List String)
deriving DecidableEq, Repr

/-- Embedding of `loadNodes()`: returns the parsed peer list and the file
state it leaves behind.  A missing file is created empty
(`createNodesFile` writes `[]`) and the empty list is returned; any other
read or parse failure is returned to the caller and the file untouched. -/
def loadNodes : NodesFileState → Except LoadErr (List String) × NodesFileState
  | NodesFileState.absent => (Except.ok [], NodesFileState.good [])
  | NodesFileState.readError => (Except.error LoadErr.ioError, NodesFileState.readError)
  | NodesFileState.corrupt => (Except.error LoadErr.parseError, NodesFileState.corrupt)
  | NodesFileState.good nodes => (Except.ok nodes, NodesFileState.good nodes)

/-- Embedding of `registerNodeWithDiscovery(nodeID)`: load the registry,
append `nodeID`, persist the whole list back via `saveNodes`. -/
def registerNodeWithDiscovery (nodeID : String) (nf : NodesFileState) :
    Except LoadErr Unit × NodesFileState :=
  match loadNodes nf with
  | (Except.error e, nf') => (Except.error e, nf')
  | (Except.ok nodes, _) => (Except.ok (), NodesFileState.good (nodes ++ [nodeID]))

/-! ### SyncBroadcaster (`syncBlock`, lines 443-456) -/

/-- The whole replication store: one file state per peer id. -/
def Store : Type := String → FileState

/-- Pointwise update of the replication store at one peer's file. -/
def setStore (st : Store) (p : String) (f : FileState) : Store :=
  fun q => if q = p then f else st q

/-- The fan-out loop of `syncBlock`: apply `storeBlockData` to every peer in
the registry list, in order, each on that peer's own file. -/
def syncStores (b : Block) (peers : List String) (st : Store) : Store :=
  peers.foldl (fun s node => setStore s node (storeBlockData b (s node))) st

/-- Embedding of `syncBlock(newBlock)`: load the registry (an error aborts
with that error before any store), then store the block for every peer. -/
def syncBlock (b : Block) (nf : NodesFileState) (st : Store) :
    Except LoadErr Store × NodesFileState :=
  match loadNodes nf with
  | (Except.error e, nf') => (Except.error e, nf')
  | (Except.ok nodes, nf') => (Except.ok (syncStores b nodes st), nf')

/-! ### HTTP read path (`getPrimaryNodes`/`readBlockchainData`/`GET /chain`,
lines 529-537 and 565-586) -/

/-- Embedding of `getPrimaryNodes()`: the last registered peer id.
`none` models process death: `log.Fatalf` when `loadNodes` fails, and the
`nodes[len(nodes)-1]` index-out-of-range panic when the registry is empty. -/
def getPrimaryNodes (nf : NodesFileState) : Option String :=
  match loadNodes nf with
  | (Except.error _, _) => none
  | (Except.ok nodes, _) => nodes.getLast?

/-- Embedding of the read in `readBlockchainData`: `ReadFile` plus
`json.Unmarshal` of one data file; any failure is an error (`none`). -/
def readBlockFile : FileState → Option (List Block)
  | FileState.good blocks => some blocks
  | _ => none

/-- Outcome of one `GET /chain` request. -/
inductive ChainResult where
  | crash
  | serverError
  | ok (blocks : List Block)
deriving DecidableEq, Repr

/-- Embedding of the `GET /chain` handler: pick the primary peer (crashing
the process if the registry is empty or unloadable), read its data file, and
answer 200 with the blocks or 500 on a read failure. -/
def handleGetChain (nf : NodesFileState) (st : Store) : ChainResult :=
  match getPrimaryNodes nf with
  | none => ChainResult.crash
  | some primary =>
      match readBlockFile (st primary) with
      | none => ChainResult.serverError
      | some blocks => ChainResult.ok blocks

/-! ### Helper lemmas about `storeBlockData` -/

/-- The filter loop of `storeBlockData` computes an ordinary `List.filter`. -/
theorem removeSameID_eq_filter (blockID : String) (blocks : List Block) :
    removeSameID blockID blocks
      = blocks.filter (fun b => b.ID != blockID) := by
  have key : ∀ (l acc : List Block),
      l.foldl (fun acc b => if b.ID != blockID then acc ++ [b] else acc) acc
        = acc ++ l.filter (fun b => b.ID != blockID) := by
    intro l
    induction l with
    | nil => intro acc; simp
    | cons b l ih =>
        intro acc
        rw [List.foldl_cons, List.filter_cons]
        cases hb : (b.ID != blockID) with
        | true =>
            rw [if_pos rfl, if_pos rfl, ih]
            simp
        | false =>
            rw [if_neg (by simp), if_neg (by simp), ih]
  simpa [removeSameID] using key blocks []

/-- Applying the list-level store twice with the same block is the same as
applying it once. -/
theorem storeBlocks_idem (B : Block) (s : List Block) :
    storeBlocks B (storeBlocks B s) = storeBlocks B s := by
  simp [storeBlocks, removeSameID_eq_filter, List.filter_append,
    List.filter_filter, List.filter_cons]

/-- After a store, the blocks carrying the stored block's id are exactly the
stored block itself, once. -/
theorem storeBlocks_filter_same (B : Block) (s : List Block) :
    (storeBlocks B s).filter (fun x => x.ID == B.ID) = [B] := by
  simp [storeBlocks, removeSameID_eq_filter, List.filter_append,
    List.filter_filter, List.filter_cons]

/-- The store keeps block ids pairwise distinct. -/
theorem storeBlocks_nodup (B : Block) (s : List Block)
    (h : (s.map Block.ID).Nodup) :
    ((storeBlocks B s).map Block.ID).Nodup := by
  rw [storeBlocks, removeSameID_eq_filter, List.map_append]
  refine List.Nodup.append ?_ (by simp) ?_
  · exact h.sublist ((List.filter_sublist s).map Block.ID)
  · intro a ha hb
    simp at hb
    obtain ⟨x, hx, hxa⟩ := List.mem_map.mp ha
    rw [List.mem_filter] at hx
    subst hb
    rw [hxa] at hx
    simp at hx

/-- Every replication-store state this program can write has pairwise
distinct block ids. -/
theorem replayStore_nodup (ops : List Block) :
    ((replayStore ops).map Block.ID).Nodup := by
  have key : ∀ (l s : List Block), (s.map Block.ID).Nodup →
      ((l.foldl (fun s b => storeBlocks b s) s).map Block.ID).Nodup := by
    intro l
    induction l with
    | nil => intro s hs; simpa using hs
    | cons b l ih => intro s hs; exact ih _ (storeBlocks_nodup b s hs)
  simpa [replayStore] using key ops [] (by simp)

/-- On a sequence with distinct ids that already contains `B`, re-storing
`B` permutes the sequence (it moves `B` to the end). -/
theorem storeBlocks_perm (B : Block) (s : List Block)
    (hnd : (s.map Block.ID).Nodup) (hmem : B ∈ s) :
    (storeBlocks B s).Perm s := by
  rw [storeBlocks, removeSameID_eq_filter]
  induction s with
  | nil => cases hmem
  | cons c rest ih =>
      rw [List.map_cons, List.nodup_cons] at hnd
      rcases List.mem_cons.mp hmem with hc | hc
      · subst hc
        have hall : ∀ x ∈ rest, (x.ID != B.ID) = true := by
          intro x hx
          have : x.ID ≠ B.ID := by
            intro heq
            exact hnd.1 (heq ▸ List.mem_map_of_mem Block.ID hx)
          simpa using this
        rw [List.filter_cons]
        simp only [bne_self_eq_false]
        rw [if_neg (by simp), List.filter_eq_self.mpr hall]
        exact List.perm_append_singleton B rest
      · have hne : c.ID ≠ B.ID := by
          intro heq
          exact hnd.1 (heq ▸ List.mem_map_of_mem Block.ID hc)
        rw [List.filter_cons, if_pos (by simpa using hne)]
        exact List.Perm.cons c (ih hnd.2 hc)

/-- File-level idempotence of `storeBlockData`. -/
theorem storeBlockData_idem (B : Block) (fs : FileState) :
    storeBlockData B (storeBlockData B fs) = storeBlockData B fs := by
  cases fs with
  | absent => exact congrArg FileState.good (storeBlocks_idem B [])
  | readError => exact congrArg FileState.good (storeBlocks_idem B [])
  | corrupt => rfl
  | good blocks => exact congrArg FileState.good (storeBlocks_idem B blocks)

/-! ### Claim C4: idempotent replication -/

/-- C4. Hash-based replication is idempotent: on any store state this
program can have written, if block `B` is already present, re-applying
`storeBlockData` keeps the length and the multiset of stored blocks (and
keeps exactly one entry with `B`'s id); and re-delivering the same block to
any file state yields the same final file state. -/
theorem storeBlockData_idempotent_replication :
    ∀ (ops : List Block) (B : Block) (fs : FileState),
      (B ∈ replayStore ops →
        (storeBlocks B (replayStore ops)).length = (replayStore ops).length
        ∧ (storeBlocks B (replayStore ops)).Perm (replayStore ops))
      ∧ (storeBlocks B (replayStore ops)).filter (fun x => x.ID == B.ID) = [B]
      ∧ storeBlockData B (storeBlockData B fs) = storeBlockData B fs := by
  intro ops B fs
  refine ⟨fun hmem => ?_, storeBlocks_filter_same B _, storeBlockData_idem B fs⟩
  have hperm := storeBlocks_perm B (replayStore ops) (replayStore_nodup ops) hmem
  exact ⟨hperm.length_eq, hperm⟩

/-- Witness for C4 at a concrete store: the block is present after a replay
of one store, and re-storing it changes neither length nor content. -/
theorem storeBlockData_idempotent_replication_witness :
    Block.mk "id-1" "t" "d" "p" "h" ∈ replayStore [Block.mk "id-1" "t" "d" "p" "h"]
    ∧ (storeBlocks (Block.mk "id-1" "t" "d" "p" "h")
          (replayStore [Block.mk "id-1" "t" "d" "p" "h"])).length
        = (replayStore [Block.mk "id-1" "t" "d" "p" "h"]).length
    ∧ (storeBlocks (Block.mk "id-1" "t" "d" "p" "h")
          (replayStore [Block.mk "id-1" "t" "d" "p" "h"])).Perm
        (replayStore [Block.mk "id-1" "t" "d" "p" "h"]) :=
  ⟨by decide,
   ((storeBlockData_idempotent_replication [Block.mk "id-1" "t" "d" "p" "h"]
      (Block.mk "id-1" "t" "d" "p" "h") FileState.absent).1 (by decide)).1,
   ((storeBlockData_idempotent_replication [Block.mk "id-1" "t" "d" "p" "h"]
      (Block.mk "id-1" "t" "d" "p" "h") FileState.absent).1 (by decide)).2⟩

/-! ### Claim C10: frame property of the hash-based store -/

/-- C10. A successful `storeBlockData` writes back exactly the previous
sequence with every block sharing the new block's id removed and the new
block appended at the last position; blocks with other ids are kept
unchanged in their original relative order (the `List.filter` form), and on
a missing file the result is the singleton sequence. -/
theorem storeBlockData_frame :
    ∀ (B : Block) (l : List Block),
      storeBlockData B (FileState.good l)
        = FileState.good (l.filter (fun x => x.ID != B.ID) ++ [B])
      ∧ (storeBlocks B l).getLast? = some B
      ∧ storeBlockData B FileState.absent = FileState.good [B] := by
  intro B l
  refine ⟨?_, ?_, rfl⟩
  · simp [storeBlockData, storeBlocks, removeSameID_eq_filter]
  · rw [storeBlocks]
    exact List.getLast?_concat _

/-! ### Helper lemmas about the fan-out loop -/

/-- Updating one peer's file leaves the other peers' files untouched. -/
theorem setStore_other (st : Store) (p : String) (f : FileState) (q : String)
    (h : q ≠ p) : setStore st p f q = st q := by
  simp [setStore, h]

/-- A peer absent from the registry list is untouched by the fan-out. -/
theorem syncStores_not_mem :
    ∀ (peers : List String) (b : Block) (st : Store) (p : String),
      p ∉ peers → syncStores b peers st p = st p := by
  intro peers
  induction peers with
  | nil => intro b st p _; rfl
  | cons q rest ih =>
      intro b st p h
      have hstep : syncStores b (q :: rest) st
          = syncStores b rest (setStore st q (storeBlockData b (st q))) := rfl
      have hpq : p ≠ q := fun hc => h (hc ▸ List.mem_cons_self q rest)
      rw [hstep, ih _ _ _ (fun hc => h (List.mem_cons_of_mem q hc)),
        setStore_other _ _ _ _ hpq]

/-- On a duplicate-free registry list, the fan-out applies `storeBlockData`
to every listed peer, on that peer's own prior file state, independently of
the other peers' file states. -/
theorem syncStores_mem :
    ∀ (peers : List String) (b : Block) (st : Store) (p : String),
      peers.Nodup → p ∈ peers →
      syncStores b peers st p = storeBlockData b (st p) := by
  intro peers
  induction peers with
  | nil => intro b st p _ hmem; cases hmem
  | cons q rest ih =>
      intro b st p hnd hmem
      rw [List.nodup_cons] at hnd
      have hstep : syncStores b (q :: rest) st
          = syncStores b rest (setStore st q (storeBlockData b (st q))) := rfl
      rcases List.mem_cons.mp hmem with hpq | hpr
      · subst hpq
        rw [hstep, syncStores_not_mem _ _ _ _ hnd.1]
        simp [setStore]
      · have hpq : p ≠ q := fun hc => hnd.1 (hc ▸ hpr)
        rw [hstep, ih _ _ _ hnd.2 hpr, setStore_other _ _ _ _ hpq]

/-! ### Claim C6: best-effort fan-out -/

/-- C6. The broadcast applies the per-peer store to every registry entry
independently: each listed peer's final file depends only on its own prior
file (first conjunct); in the two-peer scenario, `node-2` receives exactly
the mined block whatever the state of `node-3`'s file — including a corrupt
one on which the store fails (second and third conjuncts); a corrupt file at
the first peer does not prevent delivery to the second (fourth conjunct);
and `syncBlock` on the registry `["node-2", "node-3"]` performs exactly this
fan-out (fifth conjunct). -/
theorem syncBlock_best_effort_fanout :
    (∀ (b : Block) (peers : List String) (st : Store) (p : String),
        peers.Nodup → p ∈ peers →
        syncStores b peers st p = storeBlockData b (st p))
    ∧ (∀ (b : Block) (s3 : FileState),
        syncStores b ["node-2", "node-3"]
            (fun q => if q = "node-3" then s3 else FileState.absent) "node-2"
          = FileState.good [b])
    ∧ (∀ (b : Block) (s3 : FileState),
        syncStores b ["node-2", "node-3"]
            (fun q => if q = "node-3" then s3 else FileState.absent) "node-3"
          = storeBlockData b s3)
    ∧ (∀ b : Block,
        syncStores b ["node-2", "node-3"]
            (fun q => if q = "node-2" then FileState.corrupt else FileState.absent)
            "node-3"
          = FileState.good [b]
        ∧ syncStores b ["node-2", "node-3"]
            (fun q => if q = "node-2" then FileState.corrupt else FileState.absent)
            "node-2"
          = FileState.corrupt)
    ∧ ∀ (b : Block) (st : Store),
        syncBlock b (NodesFileState.good ["node-2", "node-3"]) st
          = (Except.ok (syncStores b ["node-2", "node-3"] st),
             NodesFileState.good ["node-2", "node-3"]) := by
  have hnd : List.Nodup ["node-2", "node-3"] := by decide
  refine ⟨fun b peers st p => syncStores_mem peers b st p, ?_, ?_, ?_,
    fun b st => rfl⟩
  · intro b s3
    rw [syncStores_mem _ _ _ _ hnd (by simp)]
    rfl
  · intro b s3
    rw [syncStores_mem _ _ _ _ hnd (by simp)]
    norm_num
  · intro b
    constructor
    · rw [syncStores_mem _ _ _ _ hnd (by simp)]
      rfl
    · rw [syncStores_mem _ _ _ _ hnd (by simp)]
      rfl

/-- Witness for C6's quantified independence conjunct at a concrete input. -/
theorem syncBlock_best_effort_fanout_witness :
    syncStores (Block.mk "w6" "t" "d" "p" "h") ["node-9"]
        (fun _ => FileState.absent) "node-9"
      = storeBlockData (Block.mk "w6" "t" "d" "p" "h") FileState.absent :=
  syncBlock_best_effort_fanout.1 (Block.mk "w6" "t" "d" "p" "h") ["node-9"]
    (fun _ => FileState.absent) "node-9" (by decide) (by decide)

/-! ### Helper lemmas about mining -/

/-- Mining preserves non-emptiness and the hash linkage of the chain. -/
theorem mineMany_chain_linked :
    ∀ (ps : List MineParams) (chain : List Block),
      chain ≠ [] → List.Chain' linkRel chain →
      mineMany ps chain ≠ [] ∧ List.Chain' linkRel (mineMany ps chain) := by
  intro ps
  induction ps with
  | nil => intro chain h1 h2; exact ⟨h1, h2⟩
  | cons p rest ih =>
      intro chain h1 h2
      obtain ⟨t, ht⟩ := Option.isSome_iff_exists.mp (List.getLast?_isSome.mpr h1)
      have hstep : mineMany (p :: rest) chain
          = mineMany rest (chain ++ [newBlockOf p t]) := by
        simp [mineMany, mineBlock, ht]
      rw [hstep]
      apply ih
      · simp
      · rw [List.chain'_append]
        refine ⟨h2, List.chain'_singleton _, ?_⟩
        intro x hx y hy
        rw [ht] at hx
        simp at hx hy
        subst hx
        subst hy
        rfl

/-! ### Claim C1: chain linkage invariant -/

/-- C1. In the ledger produced by `initBlockchain` followed by any number of
`mineBlock` calls, every block except the first has `prevHash` equal to the
`hash` of the block immediately before it. -/
theorem chain_linkage (genesisID : String) (ps : List MineParams) (i : Nat)
    (h : i + 1 < (mineMany ps (initBlockchain genesisID [])).length) :
    ((mineMany ps (initBlockchain genesisID [])).getD (i + 1) blockDefault).PrevHash
      = ((mineMany ps (initBlockchain genesisID [])).getD i blockDefault).Hash := by
  have hg : initBlockchain genesisID [] ≠ [] := by simp [initBlockchain]
  have hc : List.Chain' linkRel (initBlockchain genesisID []) := by
    rw [initBlockchain, List.nil_append]
    exact List.chain'_singleton _
  have hlinked := (mineMany_chain_linked ps _ hg hc).2
  rw [List.chain'_iff_get] at hlinked
  have hstep := hlinked i (by omega)
  rw [List.getD_eq_getElem _ _ h, List.getD_eq_getElem _ _ (by omega)]
  rw [List.get_eq_getElem, List.get_eq_getElem] at hstep
  exact hstep

/-- Witness for C1: one mined block after genesis, checked at index 0. -/
theorem chain_linkage_witness :
    0 + 1 < (mineMany [MineParams.mk "n" "u" "t" "t"]
        (initBlockchain "g" [])).length
    ∧ ((mineMany [MineParams.mk "n" "u" "t" "t"]
          (initBlockchain "g" [])).getD (0 + 1) blockDefault).PrevHash
        = ((mineMany [MineParams.mk "n" "u" "t" "t"]
            (initBlockchain "g" [])).getD 0 blockDefault).Hash :=
  ⟨by decide, chain_linkage "g" [MineParams.mk "n" "u" "t" "t"] 0 (by decide)⟩

/-! ### Claim C3: mining appends to the tip -/

/-- C3. On a non-empty chain (tip `t`), `mineBlock` returns the block built
from `t` — whose `prevHash` is `t.hash` — and the chain becomes the old
chain with exactly that block appended; after genesis plus two mine calls
the ledger has length 3. -/
theorem mineBlock_appends_to_tip :
    (∀ (chain : List Block) (p : MineParams) (t : Block),
        chain.getLast? = some t →
        mineBlock p chain = some (newBlockOf p t, chain ++ [newBlockOf p t])
        ∧ (newBlockOf p t).PrevHash = t.Hash)
    ∧ ∀ (genesisID : String) (p1 p2 : MineParams),
        (mineMany [p1, p2] (initBlockchain genesisID [])).length = 3 := by
  constructor
  · intro chain p t ht
    constructor
    · simp [mineBlock, ht]
    · rfl
  · intro g p1 p2
    rfl

/-- Witness for C3 on a concrete one-block chain. -/
theorem mineBlock_appends_to_tip_witness :
    mineBlock (MineParams.mk "n2" "u2" "t1" "t2")
        [Block.mk "gid" "ts" "gd" "" "h0"]
      = some (newBlockOf (MineParams.mk "n2" "u2" "t1" "t2")
            (Block.mk "gid" "ts" "gd" "" "h0"),
          [Block.mk "gid" "ts" "gd" "" "h0"]
            ++ [newBlockOf (MineParams.mk "n2" "u2" "t1" "t2")
                  (Block.mk "gid" "ts" "gd" "" "h0")])
    ∧ (newBlockOf (MineParams.mk "n2" "u2" "t1" "t2")
          (Block.mk "gid" "ts" "gd" "" "h0")).PrevHash
        = (Block.mk "gid" "ts" "gd" "" "h0").Hash :=
  mineBlock_appends_to_tip.1 [Block.mk "gid" "ts" "gd" "" "h0"]
    (MineParams.mk "n2" "u2" "t1" "t2") (Block.mk "gid" "ts" "gd" "" "h0") rfl

/-! ### Helper lemmas: the digest has fixed length 64 -/

/-- One round leaves the number of working variables unchanged. -/
theorem round256_length (st : List Nat) (ki wi : Nat) :
    (round256 st ki wi).length = st.length := by
  unfold round256
  split
  · simp_all
  · rfl

/-- Folding rounds leaves the number of working variables unchanged. -/
theorem foldl_round256_length (l : List (Nat × Nat)) (st : List Nat) :
    (l.foldl (fun s kw => round256 s kw.1 kw.2) st).length = st.length := by
  induction l generalizing st with
  | nil => rfl
  | cons kw l ih => rw [List.foldl_cons, ih, round256_length]

/-- Compression preserves the length of the hash state. -/
theorem sha256compress_length (h chunk : List Nat) :
    (sha256compress h chunk).length = h.length := by
  unfold sha256compress
  simp [foldl_round256_length]

/-- The SHA-256 result always consists of eight words. -/
theorem sha256words_length (msg : List Nat) : (sha256words msg).length = 8 := by
  unfold sha256words
  have key : ∀ (idxs : List Nat) (h : List Nat), h.length = 8 →
      ((idxs.foldl (fun h i =>
        sha256compress h (((toWords (padMsg msg)).drop (16 * i)).take 16)) h)).length
        = 8 := by
    intro idxs
    induction idxs with
    | nil => intro h hh; simpa using hh
    | cons i idxs ih =>
        intro h hh
        rw [List.foldl_cons]
        exact ih _ (by rw [sha256compress_length]; exact hh)
  exact key _ sha256init rfl

/-- Hex encoding yields eight characters per word. -/
theorem flatten_wordToHex_length (l : List Nat) :
    ((l.map wordToHex).flatten).length = 8 * l.length := by
  induction l with
  | nil => rfl
  | cons w l ih =>
      simp only [List.map_cons, List.flatten_cons, List.length_append, ih,
        List.length_cons, wordToHex, List.length_nil]
      omega

/-- The hex digest of any string has exactly 64 characters. -/
theorem sha256hex_length (s : String) : (sha256hex s).length = 64 := by
  unfold sha256hex
  show ((((sha256words (utf8Bytes s)).map wordToHex).flatten)).length = 64
  rw [flatten_wordToHex_length, sha256words_length]

/-! ### Claim C2 (corrected): the hash function takes four inputs -/

/-- C2 counterexample. `calculateHash` is not a function of the triple
`(prevHash, timestamp, data)` alone: two invocations agreeing on that triple
but differing in the fourth argument give different digests; and two blocks
reachable from `mineBlock` — built over the same tip, with the two
`time.Now()` reads straddling a second boundary in one of them — agree on
all of `(prevHash, timestamp, data)` yet have different `hash`. -/
theorem calculateHash_not_three_inputs :
    decide (calculateHash "" "t" "d" "" = calculateHash "" "t" "d" "x") = false
    ∧ (newBlockOf (MineParams.mk "n" "ua" "09:00:00" "09:00:00")
          (Block.mk "g" "ts" "gd" "" "h0")).PrevHash
        = (newBlockOf (MineParams.mk "n" "ub" "09:00:00" "09:00:01")
            (Block.mk "g" "ts" "gd" "" "h0")).PrevHash
    ∧ (newBlockOf (MineParams.mk "n" "ua" "09:00:00" "09:00:00")
          (Block.mk "g" "ts" "gd" "" "h0")).Timestamp
        = (newBlockOf (MineParams.mk "n" "ub" "09:00:00" "09:00:01")
            (Block.mk "g" "ts" "gd" "" "h0")).Timestamp
    ∧ (newBlockOf (MineParams.mk "n" "ua" "09:00:00" "09:00:00")
          (Block.mk "g" "ts" "gd" "" "h0")).Data
        = (newBlockOf (MineParams.mk "n" "ub" "09:00:00" "09:00:01")
            (Block.mk "g" "ts" "gd" "" "h0")).Data
    ∧ decide ((newBlockOf (MineParams.mk "n" "ua" "09:00:00" "09:00:00")
          (Block.mk "g" "ts" "gd" "" "h0")).Hash
        = (newBlockOf (MineParams.mk "n" "ub" "09:00:00" "09:00:01")
            (Block.mk "g" "ts" "gd" "" "h0")).Hash) = false := by
  exact ⟨by decide, rfl, rfl, rfl, by decide⟩

/-- C2 amended. `calculateHash` is a pure, deterministic function of its
four string inputs, with fixed 64-character hex output; a mined block's
`hash` is determined by the tip's `hash`, the clock string read inside the
hash argument, and the node id — not by the block's `Timestamp` field or
its uuid, which may differ without changing the hash. -/
theorem calculateHash_deterministic :
    (∀ a b c d : String, (calculateHash a b c d).length = 64)
    ∧ ∀ (p q : MineParams) (t u : Block),
        t.Hash = u.Hash → p.now2 = q.now2 → p.nodeID = q.nodeID →
        (newBlockOf p t).Hash = (newBlockOf q u).Hash := by
  constructor
  · intro a b c d
    exact sha256hex_length _
  · intro p q t u h1 h2 h3
    simp [newBlockOf, calculateHash, h1, h2, h3]

/-- Witness for C2 amended: two mined blocks with different `Timestamp`
fields and uuids but the same hash inputs have the same hash. -/
theorem calculateHash_deterministic_witness :
    (newBlockOf (MineParams.mk "n" "u1" "08:00:00" "08:00:02")
        (Block.mk "g1" "ts" "gd" "" "hh")).Hash
      = (newBlockOf (MineParams.mk "n" "u2" "08:00:01" "08:00:02")
          (Block.mk "g2" "ts2" "gd2" "pp" "hh")).Hash :=
  calculateHash_deterministic.2 (MineParams.mk "n" "u1" "08:00:00" "08:00:02")
    (MineParams.mk "n" "u2" "08:00:01" "08:00:02")
    (Block.mk "g1" "ts" "gd" "" "hh") (Block.mk "g2" "ts2" "gd2" "pp" "hh")
    rfl rfl rfl

/-! ### Claim C5 (corrected): genesis reproducibility -/

/-- C5 counterexample. Two nodes running `initBlockchain` do not produce
identical genesis blocks: the `id` field comes from a fresh
`uuid.New().String()` on each node, so runs drawing distinct uuids — the
normal case for ids the spec itself calls collision-free — give different
blocks. -/
theorem genesis_not_identical_across_nodes :
    (genesisBlock "uuid-node-1").ID = "uuid-node-1"
    ∧ (genesisBlock "uuid-node-2").ID = "uuid-node-2"
    ∧ decide (genesisBlock "uuid-node-1" = genesisBlock "uuid-node-2")
        = false :=
  ⟨rfl, rfl, by decide⟩

/-- C5 amended. The genesis block has `prevHash = ""`, its `id` is the
fresh uuid, and its `hash` is `calculateHash` applied to the fixed genesis
inputs; two runs of the genesis initialization agree on every field except
`id`. -/
theorem genesis_reproducible_except_id :
    ∀ id1 id2 : String,
      (genesisBlock id1).PrevHash = ""
      ∧ (genesisBlock id1).Hash
          = calculateHash "genesisHash" "2024-03-21 00:00:00" "Genesis Block" ""
      ∧ (genesisBlock id1).ID = id1
      ∧ (genesisBlock id1).Timestamp = (genesisBlock id2).Timestamp
      ∧ (genesisBlock id1).Data = (genesisBlock id2).Data
      ∧ (genesisBlock id1).PrevHash = (genesisBlock id2).PrevHash
      ∧ (genesisBlock id1).Hash = (genesisBlock id2).Hash :=
  fun _ _ => ⟨rfl, rfl, rfl, rfl, rfl, rfl, rfl⟩

/-! ### Claim C7: NodeRegistry load on a fresh environment -/

/-- C7. On a missing `nodes.json`, `loadNodes` returns the empty sequence
and leaves behind a file holding the empty array, so a second load returns
the same empty sequence; a read failure on an existing file and a parse
failure are both returned to the caller, with the file untouched. -/
theorem loadNodes_fresh_and_errors :
    loadNodes NodesFileState.absent = (Except.ok [], NodesFileState.good [])
    ∧ loadNodes (NodesFileState.good []) = (Except.ok [], NodesFileState.good [])
    ∧ loadNodes NodesFileState.readError
        = (Except.error LoadErr.ioError, NodesFileState.readError)
    ∧ loadNodes NodesFileState.corrupt
        = (Except.error LoadErr.parseError, NodesFileState.corrupt) :=
  ⟨rfl, rfl, rfl, rfl⟩

/-! ### Claim C8 (corrected): `GET /chain` on an empty registry -/

/-- C8 counterexample. With an empty registry file, the `GET /chain`
handler does not answer with a reported error: `getPrimaryNodes` evaluates
`nodes[len(nodes)-1]` on an empty slice, which kills the process. -/
theorem getChain_empty_registry_crashes :
    handleGetChain (NodesFileState.good []) (fun _ => FileState.absent)
      = ChainResult.crash
    ∧ decide (ChainResult.crash = ChainResult.serverError) = false :=
  ⟨rfl, by decide⟩

/-- C8 amended. `GET /chain` with an empty (or absent, or unreadable)
registry is a fatal crash, not a reported error; only with a non-empty
registry does the handler report errors: a failed read of the primary
peer's data file yields a server-error response, and a successful read
yields the stored blocks. -/
theorem getChain_crash_and_error_reporting :
    (∀ st : Store, handleGetChain (NodesFileState.good []) st = ChainResult.crash)
    ∧ (∀ st : Store, handleGetChain NodesFileState.absent st = ChainResult.crash)
    ∧ (∀ st : Store, handleGetChain NodesFileState.readError st = ChainResult.crash)
    ∧ (∀ (nodes : List String) (primary : String) (st : Store),
        readBlockFile (st primary) = none →
        handleGetChain (NodesFileState.good (nodes ++ [primary])) st
          = ChainResult.serverError)
    ∧ (∀ (nodes : List String) (primary : String) (st : Store) (bs : List Block),
        readBlockFile (st primary) = some bs →
        handleGetChain (NodesFileState.good (nodes ++ [primary])) st
          = ChainResult.ok bs) := by
  refine ⟨fun st => rfl, fun st => rfl, fun st => rfl, ?_, ?_⟩
  · intro nodes primary st h
    simp [handleGetChain, getPrimaryNodes, loadNodes, List.getLast?_concat, h]
  · intro nodes primary st bs h
    simp [handleGetChain, getPrimaryNodes, loadNodes, List.getLast?_concat, h]

/-- Witness for C8 amended: a one-entry registry whose primary data file is
unparsable produces the server-error response. -/
theorem getChain_crash_and_error_reporting_witness :
    handleGetChain (NodesFileState.good ([] ++ ["p"]))
        (fun _ => FileState.corrupt)
      = ChainResult.serverError :=
  getChain_crash_and_error_reporting.2.2.2.1 [] "p" (fun _ => FileState.corrupt)
    rfl

/-! ### Claim C9: registration appends without dedup -/

/-- C9. `registerNodeWithDiscovery` persists exactly the loaded sequence
with the peer id appended, with no uniqueness check: registering the same
id twice appends it twice, raising its occurrence count by two; on a fresh
(absent) registry file the result is the singleton sequence. -/
theorem register_appends_without_dedup :
    ∀ (nodes : List String) (peerID : String),
      registerNodeWithDiscovery peerID (NodesFileState.good nodes)
        = (Except.ok (), NodesFileState.good (nodes ++ [peerID]))
      ∧ (registerNodeWithDiscovery peerID
          (registerNodeWithDiscovery peerID (NodesFileState.good nodes)).2).2
        = NodesFileState.good (nodes ++ [peerID] ++ [peerID])
      ∧ (nodes ++ [peerID] ++ [peerID]).count peerID = nodes.count peerID + 2
      ∧ registerNodeWithDiscovery peerID NodesFileState.absent
        = (Except.ok (), NodesFileState.good [peerID]) := by
  intro nodes peerID
  refine ⟨rfl, rfl, ?_, rfl⟩
  simp [List.count_append]
